import Mathlib

/-!
Verification of the Soundromeda frontend against its specification.

The development shallowly embeds the algorithmic parts of the repository:
* `src/frontend/src/utils/kdTree.ts` — the 2D k-d tree (`build`, `nearest`,
  `KDTree.nearestNeighbor`);
* `src/frontend/src/components/Scene.tsx` — the hover hit-test
  (`getSoundPointPosition3D`, `findClosestSoundPointToCursor`) and the
  cancellable galaxy fetch effect;
* `src/frontend/src/components/UploadPanel.tsx` — the delete/hide confirm
  workflows as a step relation over the panel state;
* `src/frontend/src/useTone.ts` — the audio-player generation counter.

JavaScript numbers are modelled as rationals (`ℚ`), with the float `Infinity`
used to initialise the best distance modelled as `⊤ : WithTop ℚ`.
-/

namespace Soundromeda

/-- The TS type `string | number` used for sound-point ids. -/
inductive SoundId where
  | str (s : String)
  | num (n : Int)
deriving DecidableEq, Repr

/-- Models the JS conversion `String(id)`. -/
def SoundId.strVal : SoundId → String
  | .str s => s
  | .num n => toString n

/-! ## k-d tree (src/frontend/src/utils/kdTree.ts) -/

/-- `Point2D` from kdTree.ts: `{x, y, id}`. -/
structure Point2D where
  x : ℚ
  y : ℚ
  id : SoundId
deriving DecidableEq, Repr

/-- `sqDist(point, b)` from kdTree.ts: squared Euclidean distance. -/
def sqDist (point : Point2D) (b : ℚ × ℚ) : ℚ :=
  (point.x - b.1) * (point.x - b.1) + (point.y - b.2) * (point.y - b.2)

/-- The key selected by an axis: `axis === 0 ? 'x' : 'y'` applied to a point. -/
def key (ax : Nat) (p : Point2D) : ℚ :=
  if ax = 0 then p.x else p.y

/-- The key selected by an axis applied to the query target. -/
def tcoord (ax : Nat) (t : ℚ × ℚ) : ℚ :=
  if ax = 0 then t.1 else t.2

/-- `KDNode` from kdTree.ts; `leaf` stands for the TS `null` child. -/
inductive KDTreeNode where
  | leaf
  | node (left : KDTreeNode) (point : Point2D) (axis : Nat) (right : KDTreeNode)
deriving DecidableEq, Repr

/-- `build(points, axis)` from kdTree.ts.  The JS `Array.prototype.sort` on the
comparator `(a, b) => a[key] - b[key]` is modelled by a stable merge sort on the
key order.  `sorted.getD mid p1` is `sorted[mid]`; since `mid < sorted.length`
always holds here, the default is never used. -/
def build : List Point2D → Nat → KDTreeNode
  | [], _ => KDTreeNode.leaf
  | [p], ax => KDTreeNode.node KDTreeNode.leaf p ax KDTreeNode.leaf
  | p1 :: p2 :: tl, ax =>
    let sorted := (p1 :: p2 :: tl).mergeSort (fun a b => decide (key ax a ≤ key ax b))
    let mid := sorted.length / 2
    KDTreeNode.node (build (sorted.take mid) (1 - ax)) (sorted.getD mid p1) ax
      (build (sorted.drop (mid + 1)) (1 - ax))
termination_by pts _ => pts.length
decreasing_by
  · simp only [List.length_take, List.length_mergeSort, List.length_cons]
    omega
  · simp only [List.length_drop, List.length_mergeSort, List.length_cons]
    omega

/-- All points stored in a subtree, in-order. -/
def KDTreeNode.toList : KDTreeNode → List Point2D
  | .leaf => []
  | .node l p _ r => l.toList ++ p :: r.toList

/-- Number of nodes of a subtree. -/
def KDTreeNode.size : KDTreeNode → Nat
  | .leaf => 0
  | .node l _ _ r => 1 + l.size + r.size

/-- The mutable `best` record of `nearest`: `{point: Point2D | null,
distSq: number}`, with the initial `Infinity` modelled as `⊤`. -/
structure Best where
  point : Option Point2D
  distSq : WithTop ℚ
deriving DecidableEq, Repr

/-- The body of `nearest` that updates `best` at the visited node:
`if (d < best.distSq) { best.distSq = d; best.point = node.point; }`. -/
def visit (p : Point2D) (target : ℚ × ℚ) (best : Best) : Best :=
  if ((sqDist p target : ℚ) : WithTop ℚ) < best.distSq then
    ⟨some p, ((sqDist p target : ℚ) : WithTop ℚ)⟩
  else best

/-- `nearest(node, target, best)` from kdTree.ts, returning the final `best`. -/
def nearest : KDTreeNode → ℚ × ℚ → Best → Best
  | .leaf, _, best => best
  | .node l p ax r, target, best =>
    let best1 := visit p target best
    let diff := tcoord ax target - key ax p
    if diff ≤ 0 then
      let b2 := nearest l target best1
      if ((diff * diff : ℚ) : WithTop ℚ) < b2.distSq then nearest r target b2 else b2
    else
      let b2 := nearest r target best1
      if ((diff * diff : ℚ) : WithTop ℚ) < b2.distSq then nearest l target b2 else b2

/-- Number of (non-null) tree nodes visited by `nearest`, following exactly the
same control flow as `nearest`. -/
def nearestCount : KDTreeNode → ℚ × ℚ → Best → Nat
  | .leaf, _, _ => 0
  | .node l p ax r, target, best =>
    let best1 := visit p target best
    let diff := tcoord ax target - key ax p
    if diff ≤ 0 then
      let b2 := nearest l target best1
      1 + nearestCount l target best1 +
        (if ((diff * diff : ℚ) : WithTop ℚ) < b2.distSq then nearestCount r target b2 else 0)
    else
      let b2 := nearest r target best1
      1 + nearestCount r target best1 +
        (if ((diff * diff : ℚ) : WithTop ℚ) < b2.distSq then nearestCount l target b2 else 0)

/-- `KDTree.nearestNeighbor(x, y)` from kdTree.ts, with the tree root passed
explicitly (the `KDTree` constructor stores `build(points)`, i.e. axis 0). -/
def nearestNeighbor (root : KDTreeNode) (x y : ℚ) : Option Point2D :=
  (nearest root (x, y) ⟨none, ⊤⟩).point

/-- The root stored by `new KDTree(points)`. -/
def kdTreeRoot (points : List Point2D) : KDTreeNode :=
  build points 0

/-- Well-formedness of a k-d subtree: at each node, left-subtree points are at
or below the node on the node's axis and right-subtree points at or above, and
the children are themselves well-formed. -/
def WF : KDTreeNode → Prop
  | .leaf => True
  | .node l p ax r =>
    (∀ q ∈ l.toList, key ax q ≤ key ax p) ∧ (∀ q ∈ r.toList, key ax p ≤ key ax q) ∧
      WF l ∧ WF r

/-- Splitting a list at an in-bounds index recovers the list. -/
theorem take_getD_drop {α : Type} (s : List α) (d : α) (m : Nat) (h : m < s.length) :
    s.take m ++ s.getD m d :: s.drop (m + 1) = s := by
  have h1 : s.getD m d = s[m] := by
    rw [List.getD_eq_getElem?_getD, List.getElem?_eq_getElem h, Option.getD_some]
  rw [h1, ← List.drop_eq_getElem_cons h, List.take_append_drop]

/-- The points stored in the built tree are a permutation of the input list. -/
theorem toList_build : ∀ (pts : List Point2D) (ax : Nat), (build pts ax).toList.Perm pts
  | [], _ => by simp [build, KDTreeNode.toList]
  | [p], _ => by simp [build, KDTreeNode.toList]
  | p1 :: p2 :: tl, ax => by
    rw [build]
    simp only [KDTreeNode.toList]
    set s := (p1 :: p2 :: tl).mergeSort (fun a b => decide (key ax a ≤ key ax b)) with hs
    have hlen : s.length = tl.length + 2 := by rw [hs]; simp
    have hm : s.length / 2 < s.length := by omega
    have h1 := toList_build (s.take (s.length / 2)) (1 - ax)
    have h2 := toList_build (s.drop (s.length / 2 + 1)) (1 - ax)
    have h3 := h1.append (h2.cons (s.getD (s.length / 2) p1))
    rw [take_getD_drop s p1 _ hm] at h3
    exact h3.trans (by rw [hs]; exact List.mergeSort_perm _ _)
termination_by pts _ => pts.length
decreasing_by
  · simp only [List.length_take, List.length_mergeSort, List.length_cons]
    omega
  · simp only [List.length_drop, List.length_mergeSort, List.length_cons]
    omega

/-- Membership in the built tree coincides with membership in the input list. -/
theorem build_mem {pts : List Point2D} {ax : Nat} {q : Point2D} :
    q ∈ (build pts ax).toList ↔ q ∈ pts :=
  (toList_build pts ax).mem_iff

/-- `build` produces a well-formed k-d tree: the median split puts smaller keys
on the left and larger keys on the right. -/
theorem build_wf : ∀ (pts : List Point2D) (ax : Nat), WF (build pts ax)
  | [], _ => by simp [build, WF]
  | [p], _ => by simp [build, WF, KDTreeNode.toList]
  | p1 :: p2 :: tl, ax => by
    rw [build]
    set s := (p1 :: p2 :: tl).mergeSort (fun a b => decide (key ax a ≤ key ax b)) with hs
    have hlen : s.length = tl.length + 2 := by rw [hs]; simp
    have hm : s.length / 2 < s.length := by omega
    have hpair : s.Pairwise (fun a b => decide (key ax a ≤ key ax b) = true) := by
      rw [hs]
      exact List.sorted_mergeSort
        (fun a b c hab hbc => by
          simp only [decide_eq_true_eq] at hab hbc ⊢
          exact le_trans hab hbc)
        (fun a b => by
          simp only [Bool.or_eq_true, decide_eq_true_eq]
          exact le_total _ _)
        (p1 :: p2 :: tl)
    have hdec : s.take (s.length / 2) ++
        s.getD (s.length / 2) p1 :: s.drop (s.length / 2 + 1) = s :=
      take_getD_drop s p1 _ hm
    rw [← hdec, List.pairwise_append, List.pairwise_cons] at hpair
    obtain ⟨_, ⟨hhead, _⟩, hcross⟩ := hpair
    refine ⟨?_, ?_, build_wf _ _, build_wf _ _⟩
    · intro q hq
      have hq' : q ∈ s.take (s.length / 2) := (toList_build _ _).mem_iff.1 hq
      have := hcross q hq' (s.getD (s.length / 2) p1) (List.mem_cons_self _ _)
      simpa using this
    · intro q hq
      have hq' : q ∈ s.drop (s.length / 2 + 1) := (toList_build _ _).mem_iff.1 hq
      have := hhead q hq'
      simpa using this
termination_by pts _ => pts.length
decreasing_by
  · simp only [List.length_take, List.length_mergeSort, List.length_cons]
    omega
  · simp only [List.length_drop, List.length_mergeSort, List.length_cons]
    omega

/-- The updated best is no farther than the old best. -/
theorem visit_distSq_le (p : Point2D) (t : ℚ × ℚ) (b : Best) :
    (visit p t b).distSq ≤ b.distSq := by
  unfold visit
  split
  · exact le_of_lt (by assumption)
  · exact le_refl _

/-- The updated best is no farther than the visited node. -/
theorem visit_distSq_le_point (p : Point2D) (t : ℚ × ℚ) (b : Best) :
    (visit p t b).distSq ≤ ((sqDist p t : ℚ) : WithTop ℚ) := by
  unfold visit
  split
  · exact le_refl _
  · exact le_of_not_lt (by assumption)

/-- The best record after a sequence of updates: it is either still the
incoming record, or it holds a point of `S` together with that point's exact
squared distance. -/
def BestFrom (target : ℚ × ℚ) (S : List Point2D) (b b' : Best) : Prop :=
  b' = b ∨ ∃ p ∈ S, b'.point = some p ∧ b'.distSq = ((sqDist p target : ℚ) : WithTop ℚ)

theorem bestFrom_refl (target : ℚ × ℚ) (S : List Point2D) (b : Best) :
    BestFrom target S b b :=
  Or.inl rfl

theorem bestFrom_mono {target : ℚ × ℚ} {S S' : List Point2D} {b b' : Best}
    (hs : ∀ p ∈ S, p ∈ S') (h : BestFrom target S b b') : BestFrom target S' b b' := by
  rcases h with h | ⟨p, hp, h1, h2⟩
  · exact Or.inl h
  · exact Or.inr ⟨p, hs p hp, h1, h2⟩

theorem bestFrom_trans {target : ℚ × ℚ} {S : List Point2D} {b b1 b2 : Best}
    (h1 : BestFrom target S b b1) (h2 : BestFrom target S b1 b2) :
    BestFrom target S b b2 := by
  rcases h2 with h2 | h2
  · rw [h2]; exact h1
  · exact Or.inr h2

theorem visit_bestFrom {target : ℚ × ℚ} {S : List Point2D} {p : Point2D}
    (hp : p ∈ S) (b : Best) : BestFrom target S b (visit p target b) := by
  unfold visit
  split
  · exact Or.inr ⟨p, hp, rfl, rfl⟩
  · exact Or.inl rfl

/-- The squared distance along any one axis bounds the squared distance. -/
theorem axis_sq_le_sqDist (ax : Nat) (q : Point2D) (t : ℚ × ℚ) :
    (tcoord ax t - key ax q) * (tcoord ax t - key ax q) ≤ sqDist q t := by
  unfold tcoord key sqDist
  split
  · nlinarith [mul_self_nonneg (q.y - t.2)]
  · nlinarith [mul_self_nonneg (q.x - t.1)]

/-- Pruning bound, query on the left: every point whose key is at or above the
split key is at least `diff²` away. -/
theorem far_right_bound {ax : Nat} {p q : Point2D} {t : ℚ × ℚ}
    (hpq : key ax p ≤ key ax q) (hdiff : tcoord ax t - key ax p ≤ 0) :
    (tcoord ax t - key ax p) * (tcoord ax t - key ax p) ≤ sqDist q t := by
  refine le_trans ?_ (axis_sq_le_sqDist ax q t)
  nlinarith

/-- Pruning bound, query on the right: every point whose key is at or below the
split key is at least `diff²` away. -/
theorem far_left_bound {ax : Nat} {p q : Point2D} {t : ℚ × ℚ}
    (hpq : key ax q ≤ key ax p) (hdiff : 0 < tcoord ax t - key ax p) :
    (tcoord ax t - key ax p) * (tcoord ax t - key ax p) ≤ sqDist q t := by
  refine le_trans ?_ (axis_sq_le_sqDist ax q t)
  nlinarith

theorem mem_toList_node_left {l r : KDTreeNode} {p q : Point2D} {ax : Nat}
    (h : q ∈ l.toList) : q ∈ (KDTreeNode.node l p ax r).toList := by
  simp [KDTreeNode.toList, h]

theorem mem_toList_node_self {l r : KDTreeNode} {p : Point2D} {ax : Nat} :
    p ∈ (KDTreeNode.node l p ax r).toList := by
  simp [KDTreeNode.toList]

theorem mem_toList_node_right {l r : KDTreeNode} {p q : Point2D} {ax : Nat}
    (h : q ∈ r.toList) : q ∈ (KDTreeNode.node l p ax r).toList := by
  simp [KDTreeNode.toList, h]

/-- Correctness of `nearest` on a well-formed subtree: the final best is no
farther than the incoming best, is within the distance of every point stored in
the subtree (pruned subtrees included), and is either the incoming best or an
exact (point, squared-distance) pair from the subtree. -/
theorem nearest_spec (t : KDTreeNode) (target : ℚ × ℚ) (hwf : WF t) (best : Best) :
    (nearest t target best).distSq ≤ best.distSq ∧
    (∀ q ∈ t.toList, (nearest t target best).distSq ≤ ((sqDist q target : ℚ) : WithTop ℚ)) ∧
    BestFrom target t.toList best (nearest t target best) := by
  induction t generalizing best with
  | leaf =>
    exact ⟨le_refl _, by simp [KDTreeNode.toList], bestFrom_refl _ _ _⟩
  | node l p ax r ihl ihr =>
    obtain ⟨hL, hR, hwl, hwr⟩ := hwf
    rw [nearest]
    simp only
    by_cases hgo : tcoord ax target - key ax p ≤ 0
    · rw [if_pos hgo]
      obtain ⟨ih1a, ih1b, ih1c⟩ := ihl hwl (visit p target best)
      by_cases hpr : (((tcoord ax target - key ax p) * (tcoord ax target - key ax p) : ℚ) :
          WithTop ℚ) < (nearest l target (visit p target best)).distSq
      · rw [if_pos hpr]
        obtain ⟨ih2a, ih2b, ih2c⟩ := ihr hwr (nearest l target (visit p target best))
        refine ⟨ih2a.trans (ih1a.trans (visit_distSq_le p target best)), ?_, ?_⟩
        · intro q hq
          simp only [KDTreeNode.toList, List.mem_append, List.mem_cons] at hq
          rcases hq with hql | hqp | hqr
          · exact ih2a.trans (ih1b q hql)
          · rw [hqp]
            exact ih2a.trans (ih1a.trans (visit_distSq_le_point p target best))
          · exact ih2b q hqr
        · have hv : BestFrom target (KDTreeNode.node l p ax r).toList best
              (visit p target best) := visit_bestFrom mem_toList_node_self best
          have hb1 : BestFrom target (KDTreeNode.node l p ax r).toList (visit p target best)
              (nearest l target (visit p target best)) :=
            bestFrom_mono (fun q hq => mem_toList_node_left hq) ih1c
          have hb2 : BestFrom target (KDTreeNode.node l p ax r).toList
              (nearest l target (visit p target best))
              (nearest r target (nearest l target (visit p target best))) :=
            bestFrom_mono (fun q hq => mem_toList_node_right hq) ih2c
          exact bestFrom_trans (bestFrom_trans hv hb1) hb2
      · rw [if_neg hpr]
        have hple : (nearest l target (visit p target best)).distSq ≤
            (((tcoord ax target - key ax p) * (tcoord ax target - key ax p) : ℚ) :
              WithTop ℚ) := le_of_not_lt hpr
        refine ⟨ih1a.trans (visit_distSq_le p target best), ?_, ?_⟩
        · intro q hq
          simp only [KDTreeNode.toList, List.mem_append, List.mem_cons] at hq
          rcases hq with hql | hqp | hqr
          · exact ih1b q hql
          · rw [hqp]
            exact ih1a.trans (visit_distSq_le_point p target best)
          · refine hple.trans ?_
            exact_mod_cast far_right_bound (hR q hqr) hgo
        · refine bestFrom_trans (visit_bestFrom mem_toList_node_self best) ?_
          exact bestFrom_mono (fun q hq => mem_toList_node_left hq) ih1c
    · rw [if_neg hgo]
      have hgo' : 0 < tcoord ax target - key ax p := lt_of_not_le hgo
      obtain ⟨ih1a, ih1b, ih1c⟩ := ihr hwr (visit p target best)
      by_cases hpr : (((tcoord ax target - key ax p) * (tcoord ax target - key ax p) : ℚ) :
          WithTop ℚ) < (nearest r target (visit p target best)).distSq
      · rw [if_pos hpr]
        obtain ⟨ih2a, ih2b, ih2c⟩ := ihl hwl (nearest r target (visit p target best))
        refine ⟨ih2a.trans (ih1a.trans (visit_distSq_le p target best)), ?_, ?_⟩
        · intro q hq
          simp only [KDTreeNode.toList, List.mem_append, List.mem_cons] at hq
          rcases hq with hql | hqp | hqr
          · exact ih2b q hql
          · rw [hqp]
            exact ih2a.trans (ih1a.trans (visit_distSq_le_point p target best))
          · exact ih2a.trans (ih1b q hqr)
        · have hv : BestFrom target (KDTreeNode.node l p ax r).toList best
              (visit p target best) := visit_bestFrom mem_toList_node_self best
          have hb1 : BestFrom target (KDTreeNode.node l p ax r).toList (visit p target best)
              (nearest r target (visit p target best)) :=
            bestFrom_mono (fun q hq => mem_toList_node_right hq) ih1c
          have hb2 : BestFrom target (KDTreeNode.node l p ax r).toList
              (nearest r target (visit p target best))
              (nearest l target (nearest r target (visit p target best))) :=
            bestFrom_mono (fun q hq => mem_toList_node_left hq) ih2c
          exact bestFrom_trans (bestFrom_trans hv hb1) hb2
      · rw [if_neg hpr]
        have hple : (nearest r target (visit p target best)).distSq ≤
            (((tcoord ax target - key ax p) * (tcoord ax target - key ax p) : ℚ) :
              WithTop ℚ) := le_of_not_lt hpr
        refine ⟨ih1a.trans (visit_distSq_le p target best), ?_, ?_⟩
        · intro q hq
          simp only [KDTreeNode.toList, List.mem_append, List.mem_cons] at hq
          rcases hq with hql | hqp | hqr
          · refine hple.trans ?_
            exact_mod_cast far_left_bound (hL q hql) hgo'
          · rw [hqp]
            exact ih1a.trans (visit_distSq_le_point p target best)
          · exact ih1b q hqr
        · refine bestFrom_trans (visit_bestFrom mem_toList_node_self best) ?_
          exact bestFrom_mono (fun q hq => mem_toList_node_right hq) ih1c

/-- On a non-empty point list, `KDTree.nearestNeighbor` returns a point of the
list at minimal squared distance from the query. -/
theorem nearestNeighbor_spec (pts : List Point2D) (x y : ℚ) (h : pts ≠ []) :
    ∃ p, nearestNeighbor (kdTreeRoot pts) x y = some p ∧ p ∈ pts ∧
      ∀ q ∈ pts, sqDist p (x, y) ≤ sqDist q (x, y) := by
  obtain ⟨q0, hq0⟩ := List.exists_mem_of_ne_nil pts h
  have hq0' : q0 ∈ (build pts 0).toList := build_mem.2 hq0
  obtain ⟨h1, h2, h3⟩ := nearest_spec (build pts 0) (x, y) (build_wf pts 0) ⟨none, ⊤⟩
  rcases h3 with heq | ⟨p, hp, hpt, hds⟩
  · exfalso
    have hle := h2 q0 hq0'
    rw [heq] at hle
    exact (WithTop.coe_lt_top (sqDist q0 (x, y))).not_le hle
  · refine ⟨p, ?_, build_mem.1 hp, ?_⟩
    · rw [nearestNeighbor, kdTreeRoot]
      exact hpt
    · intro q hq
      have hle := h2 q (build_mem.2 hq)
      rw [hds] at hle
      exact_mod_cast hle

/-- C1: for every finite list of 2D points and every query coordinate, the
k-d tree query `KDTree.nearestNeighbor` on the tree built from the list returns
a point of the list whose squared Euclidean distance to the query equals the
minimum squared distance over the entire input list, i.e. it agrees with a
brute-force linear scan on the distance achieved.  (For the empty list there is
no point to return — `nearestNeighbor` yields `null` — so the list is assumed
non-empty.) -/
theorem kdtree_nearest_agrees_with_linear_scan (pts : List Point2D) (x y : ℚ)
    (h : pts ≠ []) :
    ∃ p, nearestNeighbor (kdTreeRoot pts) x y = some p ∧ p ∈ pts ∧
      ∀ q ∈ pts, sqDist p (x, y) ≤ sqDist q (x, y) :=
  nearestNeighbor_spec pts x y h

/-- Witness for C1 at a concrete input. -/
theorem kdtree_nearest_agrees_with_linear_scan_witness :
    ∃ p, nearestNeighbor
        (kdTreeRoot [⟨0, 0, .num 1⟩, ⟨3, 1, .num 2⟩, ⟨1, 2, .num 3⟩]) 1 1 = some p ∧
      p ∈ [Point2D.mk 0 0 (.num 1), Point2D.mk 3 1 (.num 2), Point2D.mk 1 2 (.num 3)] ∧
      ∀ q ∈ [Point2D.mk 0 0 (.num 1), Point2D.mk 3 1 (.num 2), Point2D.mk 1 2 (.num 3)],
        sqDist p (1, 1) ≤ sqDist q (1, 1) :=
  kdtree_nearest_agrees_with_linear_scan
    [⟨0, 0, .num 1⟩, ⟨3, 1, .num 2⟩, ⟨1, 2, .num 3⟩] 1 1 (by decide)

/-- C8: `KDTree.nearestNeighbor` returns `null` (modelled `none`) iff the tree
was built from the empty point list; for every non-empty list it returns some
point of the list. -/
theorem nearestNeighbor_none_iff_empty (pts : List Point2D) (x y : ℚ) :
    (nearestNeighbor (kdTreeRoot pts) x y = none ↔ pts = []) ∧
    (pts ≠ [] → ∃ p, nearestNeighbor (kdTreeRoot pts) x y = some p ∧ p ∈ pts) := by
  constructor
  · constructor
    · intro hnone
      by_contra hne
      obtain ⟨p, hp, _⟩ := nearestNeighbor_spec pts x y hne
      rw [hp] at hnone
      exact Option.noConfusion hnone
    · intro hnil
      subst hnil
      simp [nearestNeighbor, kdTreeRoot, build, nearest]
  · intro hne
    obtain ⟨p, hp, hmem, _⟩ := nearestNeighbor_spec pts x y hne
    exact ⟨p, hp, hmem⟩

/-- Witness for C8's non-empty direction at a concrete input. -/
theorem nearestNeighbor_none_iff_empty_witness :
    ∃ p, nearestNeighbor (kdTreeRoot [⟨2, 3, .str "a"⟩]) 0 0 = some p ∧
      p ∈ [Point2D.mk 2 3 (.str "a")] :=
  (nearestNeighbor_none_iff_empty [⟨2, 3, .str "a"⟩] 0 0).2 (by decide)

/-! ### Visit counts of the k-d tree lookup (C5) -/

theorem size_toList (t : KDTreeNode) : t.size = t.toList.length := by
  induction t with
  | leaf => rfl
  | node l p ax r ihl ihr =>
    simp only [KDTreeNode.size, KDTreeNode.toList, List.length_append, List.length_cons,
      ihl, ihr]
    omega

theorem size_build (pts : List Point2D) (ax : Nat) : (build pts ax).size = pts.length := by
  rw [size_toList]
  exact (toList_build pts ax).length_eq

/-- A lookup never visits more nodes than the tree has. -/
theorem nearestCount_le_size (t : KDTreeNode) (target : ℚ × ℚ) (best : Best) :
    nearestCount t target best ≤ t.size := by
  induction t generalizing best with
  | leaf => simp [nearestCount, KDTreeNode.size]
  | node l p ax r ihl ihr =>
    rw [nearestCount]
    simp only
    by_cases hgo : tcoord ax target - key ax p ≤ 0
    · rw [if_pos hgo]
      have h1 := ihl (visit p target best)
      by_cases hpr : (((tcoord ax target - key ax p) * (tcoord ax target - key ax p) : ℚ) :
          WithTop ℚ) < (nearest l target (visit p target best)).distSq
      · rw [if_pos hpr]
        have h2 := ihr (nearest l target (visit p target best))
        simp only [KDTreeNode.size]
        omega
      · rw [if_neg hpr]
        simp only [KDTreeNode.size]
        omega
    · rw [if_neg hgo]
      have h1 := ihr (visit p target best)
      by_cases hpr : (((tcoord ax target - key ax p) * (tcoord ax target - key ax p) : ℚ) :
          WithTop ℚ) < (nearest r target (visit p target best)).distSq
      · rw [if_pos hpr]
        have h2 := ihl (nearest r target (visit p target best))
        simp only [KDTreeNode.size]
        omega
      · rw [if_neg hpr]
        simp only [KDTreeNode.size]
        omega

/-- When every point of the subtree is at squared distance at least `L`, every
per-axis split gap is strictly below `L`, and the incoming best is at least
`L`, the lookup prunes nothing: it visits every node of the subtree, and the
resulting best stays at least `L`. -/
theorem nearestCount_full : ∀ (t : KDTreeNode) (target : ℚ × ℚ) (L : ℚ),
    (∀ q ∈ t.toList, L ≤ sqDist q target) →
    (∀ q ∈ t.toList, ∀ ax : Nat,
      (tcoord ax target - key ax q) * (tcoord ax target - key ax q) < L) →
    ∀ best : Best, ((L : ℚ) : WithTop ℚ) ≤ best.distSq →
      nearestCount t target best = t.size ∧
        ((L : ℚ) : WithTop ℚ) ≤ (nearest t target best).distSq
  | .leaf, _, _, _, _, _, hb => ⟨rfl, hb⟩
  | .node l p ax r, target, L, hd, hdiff, best, hb => by
    have hdl : ∀ q ∈ l.toList, L ≤ sqDist q target :=
      fun q hq => hd q (mem_toList_node_left hq)
    have hdr : ∀ q ∈ r.toList, L ≤ sqDist q target :=
      fun q hq => hd q (mem_toList_node_right hq)
    have hdiffl : ∀ q ∈ l.toList, ∀ a : Nat,
        (tcoord a target - key a q) * (tcoord a target - key a q) < L :=
      fun q hq => hdiff q (mem_toList_node_left hq)
    have hdiffr : ∀ q ∈ r.toList, ∀ a : Nat,
        (tcoord a target - key a q) * (tcoord a target - key a q) < L :=
      fun q hq => hdiff q (mem_toList_node_right hq)
    have hv : ((L : ℚ) : WithTop ℚ) ≤ (visit p target best).distSq := by
      unfold visit
      split
      · show ((L : ℚ) : WithTop ℚ) ≤ ((sqDist p target : ℚ) : WithTop ℚ)
        exact_mod_cast hd p mem_toList_node_self
      · exact hb
    have hdp : (((tcoord ax target - key ax p) * (tcoord ax target - key ax p) : ℚ) :
        WithTop ℚ) < ((L : ℚ) : WithTop ℚ) := by
      exact_mod_cast hdiff p mem_toList_node_self ax
    by_cases hgo : tcoord ax target - key ax p ≤ 0
    · obtain ⟨hcl, hnl⟩ := nearestCount_full l target L hdl hdiffl (visit p target best) hv
      have hpr : (((tcoord ax target - key ax p) * (tcoord ax target - key ax p) : ℚ) :
          WithTop ℚ) < (nearest l target (visit p target best)).distSq :=
        lt_of_lt_of_le hdp hnl
      obtain ⟨hcr, hnr⟩ :=
        nearestCount_full r target L hdr hdiffr (nearest l target (visit p target best)) hnl
      constructor
      · rw [nearestCount]
        simp only [KDTreeNode.size]
        rw [if_pos hgo, if_pos hpr, hcl, hcr]
      · rw [nearest]
        simp only
        rw [if_pos hgo, if_pos hpr]
        exact hnr
    · obtain ⟨hcr, hnr⟩ := nearestCount_full r target L hdr hdiffr (visit p target best) hv
      have hpr : (((tcoord ax target - key ax p) * (tcoord ax target - key ax p) : ℚ) :
          WithTop ℚ) < (nearest r target (visit p target best)).distSq :=
        lt_of_lt_of_le hdp hnr
      obtain ⟨hcl, hnl⟩ :=
        nearestCount_full l target L hdl hdiffl (nearest r target (visit p target best)) hnr
      constructor
      · rw [nearestCount]
        simp only [KDTreeNode.size]
        rw [if_neg hgo, if_pos hpr, hcl, hcr]
        omega
      · rw [nearest]
        simp only
        rw [if_neg hgo, if_pos hpr]
        exact hnl

/-- A family of collinear points on the x-axis; queried from far above with a
half-integer x coordinate, the lookup can prune nothing. -/
def collinearPts (n : Nat) : List Point2D :=
  (List.range n).map (fun (i : Nat) => Point2D.mk (i : ℚ) 0 (SoundId.num (Int.ofNat i)))

theorem length_collinearPts (n : Nat) : (collinearPts n).length = n := by
  simp [collinearPts]

theorem half_le_int_sq (i : Nat) :
    (1 : ℚ) / 4 ≤ ((i : ℚ) - 1 / 2) * ((i : ℚ) - 1 / 2) := by
  rcases i with _ | j
  · norm_num
  · have h : (0 : ℚ) ≤ (j : ℚ) := Nat.cast_nonneg j
    push_cast
    nlinarith

/-- The lookup on the collinear family visits every one of the n nodes. -/
theorem nearestCount_collinear (n : Nat) :
    nearestCount (kdTreeRoot (collinearPts n)) (1 / 2, (n : ℚ) + 1) ⟨none, ⊤⟩ = n := by
  have hd : ∀ q ∈ (build (collinearPts n) 0).toList,
      ((n : ℚ) + 1) * ((n : ℚ) + 1) + 1 / 4 ≤ sqDist q (1 / 2, (n : ℚ) + 1) := by
    intro q hq
    have hmem := build_mem.1 hq
    simp only [collinearPts, List.mem_map, List.mem_range] at hmem
    obtain ⟨i, hi, hqe⟩ := hmem
    subst hqe
    have h1 := half_le_int_sq i
    simp only [sqDist]
    nlinarith
  have hdiff : ∀ q ∈ (build (collinearPts n) 0).toList, ∀ a : Nat,
      (tcoord a (1 / 2, (n : ℚ) + 1) - key a q) *
        (tcoord a (1 / 2, (n : ℚ) + 1) - key a q) <
      ((n : ℚ) + 1) * ((n : ℚ) + 1) + 1 / 4 := by
    intro q hq a
    have hmem := build_mem.1 hq
    simp only [collinearPts, List.mem_map, List.mem_range] at hmem
    obtain ⟨i, hi, hqe⟩ := hmem
    subst hqe
    have h0 : (0 : ℚ) ≤ (i : ℚ) := Nat.cast_nonneg i
    have hsucc : i + 1 ≤ n := hi
    have h1 : (i : ℚ) + 1 ≤ (n : ℚ) := by exact_mod_cast hsucc
    unfold tcoord key
    split
    · nlinarith
    · nlinarith
  obtain ⟨hc, _⟩ := nearestCount_full (build (collinearPts n) 0) (1 / 2, (n : ℚ) + 1)
    (((n : ℚ) + 1) * ((n : ℚ) + 1) + 1 / 4) hd hdiff ⟨none, ⊤⟩ le_top
  rw [kdTreeRoot, hc, size_build, length_collinearPts]

theorem collinear_growth (c : Nat) : c * (2 * (c + 1) + 1) < 4 ^ (c + 1) := by
  induction c with
  | zero => norm_num
  | succ c ih =>
    have h4 : (4 : Nat) ^ (c + 1 + 1) = 4 * 4 ^ (c + 1) := by ring
    rcases Nat.eq_zero_or_pos c with hc | hc
    · subst hc; norm_num
    · nlinarith [ih, hc, h4]

/-- Counterexample to C5 as stated: the number of nodes a k-d lookup visits is
not bounded by any constant multiple of `log n + 1` — on the collinear family
of `n` points, queried from far above, it visits all `n` nodes. -/
theorem kd_lookup_not_logarithmic :
    ¬ ∃ c : Nat, ∀ (pts : List Point2D) (x y : ℚ),
        nearestCount (kdTreeRoot pts) (x, y) ⟨none, ⊤⟩ ≤
          c * (Nat.log 2 pts.length + 1) := by
  rintro ⟨c, hc⟩
  have hcount := nearestCount_collinear (2 ^ (2 * (c + 1)))
  have h := hc (collinearPts (2 ^ (2 * (c + 1)))) (1 / 2)
    (((2 ^ (2 * (c + 1)) : Nat) : ℚ) + 1)
  rw [hcount, length_collinearPts, Nat.log_pow (by norm_num)] at h
  have hlt : c * (2 * (c + 1) + 1) < 2 ^ (2 * (c + 1)) := by
    calc c * (2 * (c + 1) + 1) < 4 ^ (c + 1) := collinear_growth c
      _ = 2 ^ (2 * (c + 1)) := by rw [pow_mul]; norm_num
  omega

/-- C5 amended: a nearest-neighbor lookup on the k-d tree built from n points
visits at most n nodes — in the worst case it visits all of them (see
`kd_lookup_not_logarithmic`), so the per-lookup bound is O(n), the same order
as the linear-scan hit-test, and O(log n) only when pruning succeeds. -/
theorem kd_lookup_visits_at_most_n (pts : List Point2D) (x y : ℚ) :
    nearestCount (kdTreeRoot pts) (x, y) ⟨none, ⊤⟩ ≤ pts.length := by
  rw [kdTreeRoot, ← size_build pts 0]
  exact nearestCount_le_size _ _ _

/-! ## Hover hit-test (src/frontend/src/components/Scene.tsx) -/

/-- `SoundPoint` from the API types: `{id, coords_2d, coords_3d?, name,
audioUrl}` with `coords_3d` optional.  `coords_3d` is modelled as an optional
runtime array, since `getSoundPointPosition3D` re-checks its length. -/
structure SoundPoint where
  id : SoundId
  coords_2d : ℚ × ℚ
  coords_3d : Option (List ℚ)
  name : String
  audioUrl : String
deriving DecidableEq, Repr

/-- `getSoundPointPosition3D` from Scene.tsx: the `coords_3d` triple when
present with length 3, otherwise `[coords_2d[0], coords_2d[1], 0]`. -/
def getSoundPointPosition3D (soundPoint : SoundPoint) : ℚ × ℚ × ℚ :=
  match soundPoint.coords_3d with
  | some [a, b, c] => (a, b, c)
  | _ => (soundPoint.coords_2d.1, soundPoint.coords_2d.2, 0)

/-- `HOVER_NDC_RADIUS = 0.04` from Scene.tsx. -/
def HOVER_NDC_RADIUS : ℚ := 4 / 100

/-- The squared distance computed in the loop body of
`findClosestSoundPointToCursor`: the point's 3D position is pushed through the
world matrix and camera projection — modelled together as the function
`project` — and compared against the cursor in normalized device coords. -/
def ndcDistSq (mouseNdc : ℚ × ℚ) (project : ℚ × ℚ × ℚ → ℚ × ℚ) (p : SoundPoint) : ℚ :=
  ((project (getSoundPointPosition3D p)).1 - mouseNdc.1) *
      ((project (getSoundPointPosition3D p)).1 - mouseNdc.1) +
    ((project (getSoundPointPosition3D p)).2 - mouseNdc.2) *
      ((project (getSoundPointPosition3D p)).2 - mouseNdc.2)

/-- One iteration of the loop in `findClosestSoundPointToCursor`, threading the
state `(bestId, bestName, bestDistSq)`. -/
def hoverStep (mouseNdc : ℚ × ℚ) (project : ℚ × ℚ × ℚ → ℚ × ℚ)
    (st : Option String × Option String × ℚ) (point : SoundPoint) :
    Option String × Option String × ℚ :=
  if ndcDistSq mouseNdc project point < st.2.2 then
    (some point.id.strVal, some point.name, ndcDistSq mouseNdc project point)
  else st

/-- `findClosestSoundPointToCursor` from Scene.tsx: a fold of `hoverStep` over
the points in list order, starting from `bestDistSq = HOVER_NDC_RADIUS²` and
null id/name; the returned record keeps only id and name. -/
def findClosestSoundPointToCursor (points : List SoundPoint) (mouseNdc : ℚ × ℚ)
    (project : ℚ × ℚ × ℚ → ℚ × ℚ) : Option String × Option String :=
  ((points.foldl (hoverStep mouseNdc project)
      (none, none, HOVER_NDC_RADIUS * HOVER_NDC_RADIUS)).1,
    (points.foldl (hoverStep mouseNdc project)
      (none, none, HOVER_NDC_RADIUS * HOVER_NDC_RADIUS)).2.1)

/-- The loop of `findClosestSoundPointToCursor`, instrumented to record the
points it visits, in order. -/
def findClosestScan (points : List SoundPoint) (mouseNdc : ℚ × ℚ)
    (project : ℚ × ℚ × ℚ → ℚ × ℚ) :
    (Option String × Option String × ℚ) × List SoundPoint :=
  points.foldl (fun acc point => (hoverStep mouseNdc project acc.1 point, acc.2 ++ [point]))
    ((none, none, HOVER_NDC_RADIUS * HOVER_NDC_RADIUS), [])

/-- C4: `getSoundPointPosition3D` returns the `coords_3d` triple when it is
present with length 3, and otherwise falls back to
`[coords_2d[0], coords_2d[1], 0]`. -/
theorem getSoundPointPosition3D_spec (sp : SoundPoint) :
    (∀ a b c : ℚ, sp.coords_3d = some [a, b, c] → getSoundPointPosition3D sp = (a, b, c)) ∧
    ((∀ l : List ℚ, sp.coords_3d = some l → l.length ≠ 3) →
      getSoundPointPosition3D sp = (sp.coords_2d.1, sp.coords_2d.2, 0)) := by
  constructor
  · intro a b c h
    unfold getSoundPointPosition3D
    rw [h]
  · intro h
    rcases hc : sp.coords_3d with _ | l
    · unfold getSoundPointPosition3D
      rw [hc]
    · have hl := h l hc
      unfold getSoundPointPosition3D
      rw [hc]
      rcases l with _ | ⟨a, _ | ⟨b, _ | ⟨c, _ | ⟨d, t⟩⟩⟩⟩ <;> simp at hl ⊢

/-- Witness for C4: both branches at concrete sound points. -/
theorem getSoundPointPosition3D_spec_witness :
    getSoundPointPosition3D ⟨.num 1, (2, 3), some [4, 5, 6], "a", "u"⟩ = (4, 5, 6) ∧
    getSoundPointPosition3D ⟨.num 2, (2, 3), none, "b", "u"⟩ = (2, 3, 0) :=
  ⟨(getSoundPointPosition3D_spec ⟨.num 1, (2, 3), some [4, 5, 6], "a", "u"⟩).1 4 5 6 rfl,
    (getSoundPointPosition3D_spec ⟨.num 2, (2, 3), none, "b", "u"⟩).2
      (fun _ h => Option.noConfusion h)⟩

/-- Invariant of the hit-test loop over the points visited so far: either
nothing has come within the hover radius and the state is still the initial
one, or the state holds a strictly-in-radius visited point of minimal
distance. -/
def HoverInv (mouseNdc : ℚ × ℚ) (project : ℚ × ℚ × ℚ → ℚ × ℚ)
    (visited : List SoundPoint) (st : Option String × Option String × ℚ) : Prop :=
  (st = (none, none, HOVER_NDC_RADIUS * HOVER_NDC_RADIUS) ∧
    ∀ p ∈ visited, HOVER_NDC_RADIUS * HOVER_NDC_RADIUS ≤ ndcDistSq mouseNdc project p) ∨
  (∃ p ∈ visited, st = (some p.id.strVal, some p.name, ndcDistSq mouseNdc project p) ∧
    ndcDistSq mouseNdc project p < HOVER_NDC_RADIUS * HOVER_NDC_RADIUS ∧
    ∀ q ∈ visited, ndcDistSq mouseNdc project p ≤ ndcDistSq mouseNdc project q)

theorem hoverStep_inv {mouseNdc : ℚ × ℚ} {project : ℚ × ℚ × ℚ → ℚ × ℚ}
    {visited : List SoundPoint} {st : Option String × Option String × ℚ}
    (h : HoverInv mouseNdc project visited st) (p : SoundPoint) :
    HoverInv mouseNdc project (visited ++ [p]) (hoverStep mouseNdc project st p) := by
  rcases h with ⟨hst, hall⟩ | ⟨p0, hp0, hst, hlt, hmin⟩
  · subst hst
    unfold hoverStep
    by_cases hc : ndcDistSq mouseNdc project p <
        ((none, none, HOVER_NDC_RADIUS * HOVER_NDC_RADIUS) :
          Option String × Option String × ℚ).2.2
    · rw [if_pos hc]
      refine Or.inr ⟨p, by simp, rfl, by simpa using hc, ?_⟩
      intro q hq
      rcases List.mem_append.1 hq with hq | hq
      · have := hall q hq
        have hc' : ndcDistSq mouseNdc project p < HOVER_NDC_RADIUS * HOVER_NDC_RADIUS := by
          simpa using hc
        linarith
      · rw [List.mem_singleton.1 hq]
    · rw [if_neg hc]
      refine Or.inl ⟨rfl, ?_⟩
      intro q hq
      rcases List.mem_append.1 hq with hq | hq
      · exact hall q hq
      · rw [List.mem_singleton.1 hq]
        simpa using le_of_not_lt hc
  · subst hst
    unfold hoverStep
    by_cases hc : ndcDistSq mouseNdc project p <
        ((some p0.id.strVal, some p0.name, ndcDistSq mouseNdc project p0) :
          Option String × Option String × ℚ).2.2
    · rw [if_pos hc]
      have hc' : ndcDistSq mouseNdc project p < ndcDistSq mouseNdc project p0 := by
        simpa using hc
      refine Or.inr ⟨p, by simp, rfl, lt_trans hc' hlt, ?_⟩
      intro q hq
      rcases List.mem_append.1 hq with hq | hq
      · exact le_of_lt (lt_of_lt_of_le hc' (hmin q hq))
      · rw [List.mem_singleton.1 hq]
    · rw [if_neg hc]
      have hc' : ndcDistSq mouseNdc project p0 ≤ ndcDistSq mouseNdc project p := by
        simpa using le_of_not_lt hc
      refine Or.inr ⟨p0, List.mem_append_left _ hp0, rfl, hlt, ?_⟩
      intro q hq
      rcases List.mem_append.1 hq with hq | hq
      · exact hmin q hq
      · rw [List.mem_singleton.1 hq]
        exact hc'

theorem hoverFold_inv (mouseNdc : ℚ × ℚ) (project : ℚ × ℚ × ℚ → ℚ × ℚ)
    (l : List SoundPoint) :
    ∀ (visited : List SoundPoint) (st : Option String × Option String × ℚ),
      HoverInv mouseNdc project visited st →
      HoverInv mouseNdc project (visited ++ l) (l.foldl (hoverStep mouseNdc project) st) := by
  induction l with
  | nil => intro visited st h; simpa using h
  | cons p t ih =>
    intro visited st h
    have h1 := ih (visited ++ [p]) (hoverStep mouseNdc project st p) (hoverStep_inv h p)
    simpa [List.append_assoc] using h1

/-- C2: the hit-test returns the id and name of a point whose projected NDC
distance to the cursor is minimal among all points and strictly below
`HOVER_NDC_RADIUS` (comparisons are on squared distances, so "within the
radius" is `ndcDistSq < HOVER_NDC_RADIUS²`), and it returns `{id: null,
name: null}` exactly when no point projects within that radius.  The THREE.js
world-matrix application and camera projection are modelled together by the
arbitrary function `project`. -/
theorem findClosest_hit_test (points : List SoundPoint) (mouseNdc : ℚ × ℚ)
    (project : ℚ × ℚ × ℚ → ℚ × ℚ) :
    ((∀ p ∈ points, HOVER_NDC_RADIUS * HOVER_NDC_RADIUS ≤ ndcDistSq mouseNdc project p) →
      findClosestSoundPointToCursor points mouseNdc project = (none, none)) ∧
    ((∃ p ∈ points, ndcDistSq mouseNdc project p < HOVER_NDC_RADIUS * HOVER_NDC_RADIUS) →
      ∃ p ∈ points,
        findClosestSoundPointToCursor points mouseNdc project =
          (some p.id.strVal, some p.name) ∧
        ndcDistSq mouseNdc project p < HOVER_NDC_RADIUS * HOVER_NDC_RADIUS ∧
        ∀ q ∈ points, ndcDistSq mouseNdc project p ≤ ndcDistSq mouseNdc project q) := by
  have hinv := hoverFold_inv mouseNdc project points []
    (none, none, HOVER_NDC_RADIUS * HOVER_NDC_RADIUS) (Or.inl ⟨rfl, by simp⟩)
  simp only [List.nil_append] at hinv
  constructor
  · intro hall
    rcases hinv with ⟨hst, _⟩ | ⟨p, hp, _, hlt, _⟩
    · rw [findClosestSoundPointToCursor, hst]
    · exact absurd hlt (not_lt.2 (hall p hp))
  · rintro ⟨p0, hp0, hlt0⟩
    rcases hinv with ⟨_, hall⟩ | ⟨p, hp, hst, hlt, hmin⟩
    · exact absurd hlt0 (not_lt.2 (hall p0 hp0))
    · exact ⟨p, hp, by rw [findClosestSoundPointToCursor, hst], hlt, hmin⟩

/-- Witness for C2 at a concrete scene: one point projecting onto the cursor. -/
theorem findClosest_hit_test_witness :
    ∃ p ∈ [SoundPoint.mk (.num 1) (0, 0) none "a" "u"],
      findClosestSoundPointToCursor [SoundPoint.mk (.num 1) (0, 0) none "a" "u"] (0, 0)
          (fun t => (t.1, t.2.1)) = (some p.id.strVal, some p.name) ∧
      ndcDistSq (0, 0) (fun t => (t.1, t.2.1)) p < HOVER_NDC_RADIUS * HOVER_NDC_RADIUS ∧
      ∀ q ∈ [SoundPoint.mk (.num 1) (0, 0) none "a" "u"],
        ndcDistSq (0, 0) (fun t => (t.1, t.2.1)) p ≤
          ndcDistSq (0, 0) (fun t => (t.1, t.2.1)) q :=
  (findClosest_hit_test [SoundPoint.mk (.num 1) (0, 0) none "a" "u"] (0, 0)
    (fun t => (t.1, t.2.1))).2
    ⟨SoundPoint.mk (.num 1) (0, 0) none "a" "u", by simp,
      by norm_num [ndcDistSq, getSoundPointPosition3D, HOVER_NDC_RADIUS]⟩

theorem findClosestScan_general (mouseNdc : ℚ × ℚ) (project : ℚ × ℚ × ℚ → ℚ × ℚ)
    (l : List SoundPoint) :
    ∀ (st : Option String × Option String × ℚ) (vis : List SoundPoint),
      l.foldl (fun acc point => (hoverStep mouseNdc project acc.1 point, acc.2 ++ [point]))
          (st, vis) =
        (l.foldl (hoverStep mouseNdc project) st, vis ++ l) := by
  induction l with
  | nil => intro st vis; simp
  | cons p t ih =>
    intro st vis
    simp only [List.foldl_cons]
    rw [ih]
    simp

/-- C3: the hit-test is a brute-force linear scan — the instrumented loop
visits exactly the input points, once each, in list order, and agrees with
`findClosestSoundPointToCursor`; each step compares the squared (never
square-rooted) distance to the current best, leaves the state unchanged when
the point cannot beat the current best (the early exit), and records the point
with its squared distance when it can. -/
theorem hit_test_linear_scan (points : List SoundPoint) (mouseNdc : ℚ × ℚ)
    (project : ℚ × ℚ × ℚ → ℚ × ℚ) :
    (findClosestScan points mouseNdc project).2 = points ∧
    findClosestSoundPointToCursor points mouseNdc project =
      ((findClosestScan points mouseNdc project).1.1,
        (findClosestScan points mouseNdc project).1.2.1) ∧
    (∀ (st : Option String × Option String × ℚ) (p : SoundPoint),
      st.2.2 ≤ ndcDistSq mouseNdc project p → hoverStep mouseNdc project st p = st) ∧
    (∀ (st : Option String × Option String × ℚ) (p : SoundPoint),
      ndcDistSq mouseNdc project p < st.2.2 →
        hoverStep mouseNdc project st p =
          (some p.id.strVal, some p.name, ndcDistSq mouseNdc project p)) := by
  have hscan := findClosestScan_general mouseNdc project points
    (none, none, HOVER_NDC_RADIUS * HOVER_NDC_RADIUS) []
  refine ⟨?_, ?_, ?_, ?_⟩
  · rw [findClosestScan, hscan]
    simp
  · rw [findClosestSoundPointToCursor, findClosestScan, hscan]
  · intro st p h
    unfold hoverStep
    rw [if_neg (not_lt.2 h)]
  · intro st p h
    unfold hoverStep
    rw [if_pos h]

/-- Witness for C3: the visit list and a successful comparison step at concrete
inputs. -/
theorem hit_test_linear_scan_witness :
    (findClosestScan [SoundPoint.mk (.num 7) (0, 0) none "w" "u"] (0, 0)
        (fun t => (t.1, t.2.1))).2 = [SoundPoint.mk (.num 7) (0, 0) none "w" "u"] ∧
    hoverStep (0, 0) (fun t => (t.1, t.2.1)) (none, none, 1)
        (SoundPoint.mk (.num 7) (0, 0) none "w" "u") =
      (some (SoundId.num 7).strVal, some "w",
        ndcDistSq (0, 0) (fun t => (t.1, t.2.1)) (SoundPoint.mk (.num 7) (0, 0) none "w" "u")) :=
  ⟨(hit_test_linear_scan [SoundPoint.mk (.num 7) (0, 0) none "w" "u"] (0, 0)
      (fun t => (t.1, t.2.1))).1,
    (hit_test_linear_scan [SoundPoint.mk (.num 7) (0, 0) none "w" "u"] (0, 0)
      (fun t => (t.1, t.2.1))).2.2.2 (none, none, 1)
      (SoundPoint.mk (.num 7) (0, 0) none "w" "u")
      (by norm_num [ndcDistSq, getSoundPointPosition3D])⟩

/-! ## Cancellable galaxy fetch (src/frontend/src/components/Scene.tsx,
`useSceneLogic`'s fetch effect) -/

/-- The state touched by the fetch effect: its `cancelled` flag and the three
point states set in the `.then` callback. -/
structure FetchEffectState where
  cancelled : Bool
  points : List SoundPoint
  builtinPoints : List SoundPoint
  userPoints : List SoundPoint
deriving DecidableEq, Repr

/-- Events of one effect instance: the effect cleanup (`cancelled = true`) and
a `fetchAllPoints` resolution delivering `{builtin, user, all}` (with
`all = builtin ++ user` as built by `fetchAllPoints`). -/
inductive FetchEvent where
  | cleanup
  | resolve (builtin user : List SoundPoint)

/-- One step of the effect: cleanup sets the flag; a resolution updates the
three point states only when `!cancelled`. -/
def fetchStep (s : FetchEffectState) (e : FetchEvent) : FetchEffectState :=
  match e with
  | .cleanup => { s with cancelled := true }
  | .resolve builtin user =>
    if s.cancelled then s
    else { s with builtinPoints := builtin, userPoints := user,
                  points := builtin ++ user }

def runFetch (s : FetchEffectState) (es : List FetchEvent) : FetchEffectState :=
  es.foldl fetchStep s

theorem fetchStep_cancelled (s : FetchEffectState) (e : FetchEvent)
    (h : s.cancelled = true) : fetchStep s e = s := by
  cases e with
  | cleanup =>
    cases s
    simp only [fetchStep]
    simp_all
  | resolve builtin user => simp [fetchStep, h]

theorem runFetch_cancelled (s : FetchEffectState) (es : List FetchEvent)
    (h : s.cancelled = true) : runFetch s es = s := by
  induction es with
  | nil => rfl
  | cons e t ih =>
    show List.foldl fetchStep (fetchStep s e) t = s
    rw [fetchStep_cancelled s e h]
    exact ih

theorem runFetch_after_cleanup_cancelled (s0 : FetchEffectState)
    (es1 : List FetchEvent) :
    (runFetch s0 (es1 ++ [FetchEvent.cleanup])).cancelled = true := by
  rw [runFetch, List.foldl_append]
  simp [fetchStep]

/-- C7: the galaxy point fetch is cancellable — once the effect's cleanup has
run (setting its `cancelled` flag), any later `fetchAllPoints` resolution (or
any other later event of the instance) never updates the `points`,
`builtinPoints` or `userPoints` state. -/
theorem fetch_cancelled_never_updates (s0 : FetchEffectState)
    (es1 es2 : List FetchEvent) :
    (runFetch (runFetch s0 (es1 ++ [FetchEvent.cleanup])) es2).points =
        (runFetch s0 (es1 ++ [FetchEvent.cleanup])).points ∧
    (runFetch (runFetch s0 (es1 ++ [FetchEvent.cleanup])) es2).builtinPoints =
        (runFetch s0 (es1 ++ [FetchEvent.cleanup])).builtinPoints ∧
    (runFetch (runFetch s0 (es1 ++ [FetchEvent.cleanup])) es2).userPoints =
        (runFetch s0 (es1 ++ [FetchEvent.cleanup])).userPoints := by
  rw [runFetch_cancelled _ es2 (runFetch_after_cleanup_cancelled s0 es1)]
  exact ⟨rfl, rfl, rfl⟩

/-! ## Audio player generation counter (src/frontend/src/useTone.ts) -/

/-- The module state of useTone.ts: `activePlayer` (a player is identified by
the generation it was created under, so at most one player is active by
construction of the state) and `playGeneration`. -/
structure ToneState where
  activePlayer : Option Nat
  playGeneration : Nat
deriving DecidableEq, Repr

/-- Events on the tone module state: the synchronous part of
`playAudioUrl(audioUrl)`, an invocation of a returned `stop` closure, the
`Tone.Player` onload callback created with generation tag `myGen`, and the
player's `onstop` callback. -/
inductive ToneEvent where
  | callPlay (audioUrl : String)
  | stopInvoke
  | playerLoaded (myGen : Nat)
  | playerStopped

/-- One step of the useTone.ts state.  `callPlay` with a non-empty url runs the
inner `stop()` (generation + 1, active player stopped, disposed and cleared)
and then bumps the generation again, capturing `myGen`; with an empty url it
only invokes `onEnded` and returns.  A loaded callback installs its player only
when its tag equals the current generation. -/
def toneStep (s : ToneState) (e : ToneEvent) : ToneState :=
  match e with
  | .callPlay audioUrl =>
    if audioUrl = "" then s
    else { activePlayer := none, playGeneration := s.playGeneration + 2 }
  | .stopInvoke => { activePlayer := none, playGeneration := s.playGeneration + 1 }
  | .playerLoaded myGen =>
    if myGen = s.playGeneration then { s with activePlayer := some myGen } else s
  | .playerStopped => { s with activePlayer := none }

/-- The C10 invariant: the active player, when present, belongs to the latest
uncancelled `playAudioUrl` call, i.e. carries the current generation. -/
def ToneInv (s : ToneState) : Prop :=
  ∀ g, s.activePlayer = some g → g = s.playGeneration

/-- Counterexample to C10 as stated: not every call to `playAudioUrl` stops and
disposes the previous player and bumps the generation — a call with an empty
`audioUrl` returns early, leaving the active player playing and the generation
counter untouched (state `⟨some 5, 5⟩`, call `playAudioUrl("")`). -/
theorem playAudioUrl_empty_counterexample :
    ¬ (∀ (s : ToneState) (url : String),
        (toneStep s (.callPlay url)).activePlayer = none ∧
        (toneStep s (.callPlay url)).playGeneration = s.playGeneration + 2) := by
  intro h
  have h5 := h ⟨some 5, 5⟩ ""
  simp [toneStep] at h5

/-- C10 amended: every call to `playAudioUrl` with a non-empty `audioUrl` first
stops and disposes any previously active player and bumps the generation
counter (twice: once in `stop()`, once after); a call with an empty `audioUrl`
leaves the state untouched; only the callback carrying the current generation
may install its player (a stale callback is a no-op); and the invariant
"`activePlayer` holds at most one player, from the latest uncancelled call" is
preserved by every step. -/
theorem playAudioUrl_generation_invariant :
    (∀ (s : ToneState) (url : String), url ≠ "" →
      (toneStep s (.callPlay url)).activePlayer = none ∧
      (toneStep s (.callPlay url)).playGeneration = s.playGeneration + 2) ∧
    (∀ (s : ToneState) (g : Nat), g ≠ s.playGeneration →
      toneStep s (.playerLoaded g) = s) ∧
    (∀ (s : ToneState) (e : ToneEvent), ToneInv s → ToneInv (toneStep s e)) := by
  refine ⟨?_, ?_, ?_⟩
  · intro s url h
    simp [toneStep, h]
  · intro s g h
    simp [toneStep, h]
  · intro s e hinv
    cases e with
    | callPlay url =>
      by_cases h : url = ""
      · simpa [toneStep, h] using hinv
      · intro g hg
        simp [toneStep, h] at hg
    | stopInvoke =>
      intro g hg
      simp [toneStep] at hg
    | playerLoaded myGen =>
      by_cases h : myGen = s.playGeneration
      · intro g hg
        simp [toneStep, h] at hg ⊢
        omega
      · intro g hg
        simp only [toneStep, if_neg h] at hg ⊢
        exact hinv g hg
    | playerStopped =>
      intro g hg
      simp [toneStep] at hg

/-- Witness for C10's amended statement at concrete states. -/
theorem playAudioUrl_generation_invariant_witness :
    ((toneStep ⟨some 3, 3⟩ (.callPlay "a")).activePlayer = none ∧
      (toneStep ⟨some 3, 3⟩ (.callPlay "a")).playGeneration = 3 + 2) ∧
    toneStep ⟨none, 4⟩ (.playerLoaded 2) = ⟨none, 4⟩ ∧
    ToneInv (toneStep ⟨some 3, 3⟩ .stopInvoke) :=
  ⟨playAudioUrl_generation_invariant.1 ⟨some 3, 3⟩ "a" (by decide),
    playAudioUrl_generation_invariant.2.1 ⟨none, 4⟩ 2 (by decide),
    playAudioUrl_generation_invariant.2.2 ⟨some 3, 3⟩ .stopInvoke
      (by intro g hg; simp at hg; show g = 3; omega)⟩

/-! ## Upload panel delete/hide workflows
(src/frontend/src/components/UploadPanel.tsx) -/

/-- `UploadedFile` from UploadPanel.tsx: `{id, name, audioUrl}`. -/
structure UploadedFile where
  id : Nat
  name : String
  audioUrl : String
deriving DecidableEq, Repr

/-- `ConfirmAction` from UploadPanel.tsx (without the `null` case, which is
carried by `Option`). -/
inductive ConfirmAction where
  | deleteAllBuiltin
  | deleteAllUser
  | deleteSelected
deriving DecidableEq, Repr

/-- The three destructive endpoints: `POST /api/sounds/hide-builtin`,
`DELETE /api/sounds/user/all`, `DELETE /api/sounds/bulk`. -/
inductive Endpoint where
  | hideBuiltin
  | deleteUserAll
  | deleteBulk
deriving DecidableEq, Repr

/-- The confirm action that guards each endpoint. -/
def actionOf : Endpoint → ConfirmAction
  | .hideBuiltin => .deleteAllBuiltin
  | .deleteUserAll => .deleteAllUser
  | .deleteBulk => .deleteSelected

/-- The outcome of an awaited call: a value, or a thrown error with message. -/
inductive Async (α : Type) where
  | returns (val : α)
  | throws (msg : String)
deriving DecidableEq

/-- The `useUploadPanelLogic` state relevant to the delete workflows, plus the
store's `galaxyVersion` (incremented by `refreshGalaxy`, initially 0). -/
structure PanelState where
  uploadedFiles : List UploadedFile
  selectionMode : Bool
  selectedIds : Finset Nat
  confirmAction : Option ConfirmAction
  deleteError : Option String
  panelMessage : Option String
  galaxyVersion : Nat
deriving DecidableEq

/-- Environment of one `deleteAllBuiltin` run: the result of
`fetchAllBuiltinIds()` (which itself maps a non-ok response to `[]` but can
throw), the `POST hide-builtin` response (`returns res.ok` or a network
throw), and the `fetchUserUploadedSounds` refetch on success. -/
structure BuiltinDeleteEnv where
  idsRes : Async (List String)
  postRes : Async Bool
  refetchRes : Async (List UploadedFile)
deriving DecidableEq

/-- Environment of one `deleteAllUser` run: the `DELETE user/all` response. -/
structure UserAllDeleteEnv where
  delRes : Async Bool
deriving DecidableEq

/-- Environment of one `deleteSelected` run: the `DELETE bulk` response and the
refetch on success. -/
structure BulkDeleteEnv where
  bulkRes : Async Bool
  refetchRes : Async (List UploadedFile)
deriving DecidableEq

/-- `deleteAllBuiltin` from UploadPanel.tsx as a transition on the panel state,
also reporting which destructive endpoints the run invoked. -/
def runDeleteAllBuiltin (s : PanelState) (env : BuiltinDeleteEnv) :
    PanelState × List Endpoint :=
  match env.idsRes with
  | .throws msg => ({ s with deleteError := some msg }, [])
  | .returns ids =>
    if ids.length = 0 then ({ s with deleteError := none, confirmAction := none }, [])
    else
      match env.postRes with
      | .throws msg => ({ s with deleteError := some msg }, [Endpoint.hideBuiltin])
      | .returns ok =>
        if ok then
          match env.refetchRes with
          | .returns files =>
            ({ s with deleteError := none, confirmAction := none,
                      galaxyVersion := s.galaxyVersion + 1,
                      panelMessage := some "All built-in sounds hidden",
                      uploadedFiles := files }, [Endpoint.hideBuiltin])
          | .throws _ =>
            ({ s with deleteError := none, confirmAction := none,
                      galaxyVersion := s.galaxyVersion + 1,
                      panelMessage := some "All built-in sounds hidden" },
              [Endpoint.hideBuiltin])
        else
          ({ s with deleteError := some "Failed to hide built-in sounds" },
            [Endpoint.hideBuiltin])

/-- `deleteAllUser` from UploadPanel.tsx as a transition on the panel state. -/
def runDeleteAllUser (s : PanelState) (env : UserAllDeleteEnv) :
    PanelState × List Endpoint :=
  match env.delRes with
  | .throws msg => ({ s with deleteError := some msg }, [Endpoint.deleteUserAll])
  | .returns ok =>
    if ok then
      ({ s with deleteError := none, confirmAction := none,
                galaxyVersion := s.galaxyVersion + 1, uploadedFiles := [],
                panelMessage := some "All user sounds deleted" },
        [Endpoint.deleteUserAll])
    else
      ({ s with deleteError := some "Failed to delete user sounds" },
        [Endpoint.deleteUserAll])

/-- `deleteSelected` from UploadPanel.tsx as a transition on the panel state;
with an empty selection it returns before doing anything. -/
def runDeleteSelected (s : PanelState) (env : BulkDeleteEnv) :
    PanelState × List Endpoint :=
  if s.selectedIds.card = 0 then (s, [])
  else
    match env.bulkRes with
    | .throws msg => ({ s with deleteError := some msg }, [Endpoint.deleteBulk])
    | .returns ok =>
      if ok then
        match env.refetchRes with
        | .returns files =>
          ({ s with deleteError := none, confirmAction := none,
                    selectionMode := false, selectedIds := ∅,
                    galaxyVersion := s.galaxyVersion + 1, uploadedFiles := files,
                    panelMessage :=
                      some ("Deleted " ++ toString s.selectedIds.card ++ " sound(s)") },
            [Endpoint.deleteBulk])
        | .throws _ =>
          ({ s with deleteError := none, confirmAction := none,
                    selectionMode := false, selectedIds := ∅,
                    galaxyVersion := s.galaxyVersion + 1,
                    panelMessage :=
                      some ("Deleted " ++ toString s.selectedIds.card ++ " sound(s)") },
            [Endpoint.deleteBulk])
      else
        ({ s with deleteError := some "Failed to delete user sounds" },
          [Endpoint.deleteBulk])

/-- Environments for a click on the confirm dialog's Yes button, one per
possible pending action. -/
structure YesEnv where
  builtin : BuiltinDeleteEnv
  userAll : UserAllDeleteEnv
  bulk : BulkDeleteEnv
deriving DecidableEq

/-- User/network events on the upload panel relevant to the delete
workflows. -/
inductive PanelEvent where
  | clickDeleteAllBuiltinBtn
  | clickDeleteAllUserBtn
  | clickDeleteSelectedBtn
  | clickCancelConfirm
  | clickYes (env : YesEnv)
  | toggleSelect (id : Nat)
  | enterSelectionModeBtn
  | exitSelectionModeBtn

/-- The click handler that sets `confirmAction` for a given action. -/
def confirmButtonEvent : ConfirmAction → PanelEvent
  | .deleteAllBuiltin => .clickDeleteAllBuiltinBtn
  | .deleteAllUser => .clickDeleteAllUserBtn
  | .deleteSelected => .clickDeleteSelectedBtn

/-- One step of the upload panel: the delete buttons set `confirmAction`, the
confirm dialog's Cancel clears it (and the error), its Yes dispatches on the
pending action (`UploadDropdown`'s Yes `onClick`), and the selection handlers
mirror `toggleSelected` / `enterSelectionMode` / `setSelectionMode(false)`.
The second component lists the destructive endpoints invoked by the step. -/
def panelStep (s : PanelState) (e : PanelEvent) : PanelState × List Endpoint :=
  match e with
  | .clickDeleteAllBuiltinBtn => ({ s with confirmAction := some .deleteAllBuiltin }, [])
  | .clickDeleteAllUserBtn => ({ s with confirmAction := some .deleteAllUser }, [])
  | .clickDeleteSelectedBtn => ({ s with confirmAction := some .deleteSelected }, [])
  | .clickCancelConfirm => ({ s with confirmAction := none, deleteError := none }, [])
  | .clickYes env =>
    match s.confirmAction with
    | some .deleteAllBuiltin => runDeleteAllBuiltin s env.builtin
    | some .deleteAllUser => runDeleteAllUser s env.userAll
    | some .deleteSelected => runDeleteSelected s env.bulk
    | none => (s, [])
  | .toggleSelect id =>
    ({ s with selectedIds :=
        if id ∈ s.selectedIds then s.selectedIds.erase id else insert id s.selectedIds }, [])
  | .enterSelectionModeBtn => ({ s with selectedIds := ∅, selectionMode := true }, [])
  | .exitSelectionModeBtn => ({ s with selectionMode := false }, [])

/-- The initial `useState` values of `useUploadPanelLogic` and the store. -/
def initialPanelState : PanelState :=
  { uploadedFiles := [], selectionMode := false, selectedIds := ∅,
    confirmAction := none, deleteError := none, panelMessage := none,
    galaxyVersion := 0 }

def runEvents (s : PanelState) (es : List PanelEvent) : PanelState :=
  es.foldl (fun s e => (panelStep s e).1) s

theorem runDeleteAllBuiltin_emits (s : PanelState) (env : BuiltinDeleteEnv) (ep : Endpoint)
    (h : ep ∈ (runDeleteAllBuiltin s env).2) : ep = Endpoint.hideBuiltin := by
  obtain ⟨idsRes, postRes, refetchRes⟩ := env
  rcases idsRes with ids | msg
  · by_cases hlen : ids.length = 0
    · simp [runDeleteAllBuiltin, hlen] at h
    · rcases postRes with ok | msg2
      · rcases ok with _ | _
        · simp [runDeleteAllBuiltin, hlen] at h
          exact h
        · rcases refetchRes with files | msg3 <;>
            · simp [runDeleteAllBuiltin, hlen] at h
              exact h
      · simp [runDeleteAllBuiltin, hlen] at h
        exact h
  · simp [runDeleteAllBuiltin] at h

theorem runDeleteAllUser_emits (s : PanelState) (env : UserAllDeleteEnv) (ep : Endpoint)
    (h : ep ∈ (runDeleteAllUser s env).2) : ep = Endpoint.deleteUserAll := by
  obtain ⟨delRes⟩ := env
  rcases delRes with ok | msg
  · rcases ok with _ | _ <;>
      · simp [runDeleteAllUser] at h
        exact h
  · simp [runDeleteAllUser] at h
    exact h

theorem runDeleteSelected_emits (s : PanelState) (env : BulkDeleteEnv) (ep : Endpoint)
    (h : ep ∈ (runDeleteSelected s env).2) : ep = Endpoint.deleteBulk := by
  obtain ⟨bulkRes, refetchRes⟩ := env
  by_cases hcard : s.selectedIds.card = 0
  · simp [runDeleteSelected, hcard] at h
  · rcases bulkRes with ok | msg
    · rcases ok with _ | _
      · simp [runDeleteSelected, hcard] at h
        exact h
      · rcases refetchRes with files | msg3 <;>
          · simp [runDeleteSelected, hcard] at h
            exact h
    · simp [runDeleteSelected, hcard] at h
      exact h

theorem runDeleteAllBuiltin_confirm (s : PanelState) (env : BuiltinDeleteEnv)
    (a : ConfirmAction)
    (h : (runDeleteAllBuiltin s env).1.confirmAction = some a) :
    s.confirmAction = some a := by
  obtain ⟨idsRes, postRes, refetchRes⟩ := env
  rcases idsRes with ids | msg
  · by_cases hlen : ids.length = 0
    · simp [runDeleteAllBuiltin, hlen] at h
    · rcases postRes with ok | msg2
      · rcases ok with _ | _
        · simpa [runDeleteAllBuiltin, hlen] using h
        · rcases refetchRes with files | msg3 <;>
            simp [runDeleteAllBuiltin, hlen] at h
      · simpa [runDeleteAllBuiltin, hlen] using h
  · simpa [runDeleteAllBuiltin] using h

theorem runDeleteAllUser_confirm (s : PanelState) (env : UserAllDeleteEnv)
    (a : ConfirmAction)
    (h : (runDeleteAllUser s env).1.confirmAction = some a) :
    s.confirmAction = some a := by
  obtain ⟨delRes⟩ := env
  rcases delRes with ok | msg
  · rcases ok with _ | _
    · simpa [runDeleteAllUser] using h
    · simp [runDeleteAllUser] at h
  · simpa [runDeleteAllUser] using h

theorem runDeleteSelected_confirm (s : PanelState) (env : BulkDeleteEnv)
    (a : ConfirmAction)
    (h : (runDeleteSelected s env).1.confirmAction = some a) :
    s.confirmAction = some a := by
  obtain ⟨bulkRes, refetchRes⟩ := env
  by_cases hcard : s.selectedIds.card = 0
  · simpa [runDeleteSelected, hcard] using h
  · rcases bulkRes with ok | msg
    · rcases ok with _ | _
      · simpa [runDeleteSelected, hcard] using h
      · rcases refetchRes with files | msg3 <;>
          simp [runDeleteSelected, hcard] at h
    · simpa [runDeleteSelected, hcard] using h

/-- A step only invokes a destructive endpoint when the event is an accepted
confirmation (Yes) and the pending confirm action matches the endpoint. -/
theorem panelStep_emits (s : PanelState) (e : PanelEvent) (ep : Endpoint)
    (h : ep ∈ (panelStep s e).2) :
    (∃ env, e = PanelEvent.clickYes env) ∧ s.confirmAction = some (actionOf ep) := by
  cases e with
  | clickYes env =>
    refine ⟨⟨env, rfl⟩, ?_⟩
    rcases hconf : s.confirmAction with _ | a
    · rw [panelStep] at h
      rw [hconf] at h
      simp at h
    · rw [panelStep] at h
      rw [hconf] at h
      cases a with
      | deleteAllBuiltin =>
        have he := runDeleteAllBuiltin_emits s env.builtin ep h
        subst he
        rfl
      | deleteAllUser =>
        have he := runDeleteAllUser_emits s env.userAll ep h
        subst he
        rfl
      | deleteSelected =>
        have he := runDeleteSelected_emits s env.bulk ep h
        subst he
        rfl
  | clickDeleteAllBuiltinBtn => simp [panelStep] at h
  | clickDeleteAllUserBtn => simp [panelStep] at h
  | clickDeleteSelectedBtn => simp [panelStep] at h
  | clickCancelConfirm => simp [panelStep] at h
  | toggleSelect i => simp [panelStep] at h
  | enterSelectionModeBtn => simp [panelStep] at h
  | exitSelectionModeBtn => simp [panelStep] at h

/-- `confirmAction = some a` after a step only if the step was the click that
sets it, or it was already `some a` before the step. -/
theorem panelStep_confirm (s : PanelState) (e : PanelEvent) (a : ConfirmAction)
    (h : (panelStep s e).1.confirmAction = some a) :
    e = confirmButtonEvent a ∨ s.confirmAction = some a := by
  cases e with
  | clickDeleteAllBuiltinBtn =>
    left
    simp [panelStep] at h
    rw [← h]
    rfl
  | clickDeleteAllUserBtn =>
    left
    simp [panelStep] at h
    rw [← h]
    rfl
  | clickDeleteSelectedBtn =>
    left
    simp [panelStep] at h
    rw [← h]
    rfl
  | clickCancelConfirm => simp [panelStep] at h
  | clickYes env =>
    right
    rcases hconf : s.confirmAction with _ | act
    · rw [panelStep] at h
      rw [hconf] at h
      simp at h
      rw [hconf] at h
      exact Option.noConfusion h
    · rw [panelStep] at h
      rw [hconf] at h
      cases act with
      | deleteAllBuiltin =>
        have hr := runDeleteAllBuiltin_confirm s env.builtin a h
        rw [hconf] at hr
        exact hr
      | deleteAllUser =>
        have hr := runDeleteAllUser_confirm s env.userAll a h
        rw [hconf] at hr
        exact hr
      | deleteSelected =>
        have hr := runDeleteSelected_confirm s env.bulk a h
        rw [hconf] at hr
        exact hr
  | toggleSelect i =>
    right
    simpa [panelStep] using h
  | enterSelectionModeBtn =>
    right
    simpa [panelStep] using h
  | exitSelectionModeBtn =>
    right
    simpa [panelStep] using h

/-- `confirmAction = some a` after a run of events only if it already held or
the corresponding confirm button was clicked during the run. -/
theorem runEvents_confirm (es : List PanelEvent) :
    ∀ (s : PanelState) (a : ConfirmAction),
      (runEvents s es).confirmAction = some a →
      s.confirmAction = some a ∨ confirmButtonEvent a ∈ es := by
  induction es with
  | nil => intro s a h; exact Or.inl h
  | cons e t ih =>
    intro s a h
    have h' : (runEvents (panelStep s e).1 t).confirmAction = some a := h
    rcases ih _ a h' with h1 | h1
    · rcases panelStep_confirm s e a h1 with h2 | h2
      · subst h2
        exact Or.inr (List.mem_cons_self _ _)
      · exact Or.inl h2
    · exact Or.inr (List.mem_cons_of_mem e h1)

/-- C6: the delete/hide workflows are confirm-then-call sequences.  In any
trace of panel events from the initial state, a step that invokes one of the
destructive endpoints (`POST hide-builtin`, `DELETE user/all`, `DELETE bulk`)
is an accepted confirmation: its event is a Yes click, the state's
`confirmAction` at that step is the action guarding that endpoint, and the
click that set that confirm action occurred earlier in the trace. -/
theorem confirm_then_call (es : List PanelEvent) (i : Nat) (hi : i < es.length)
    (ep : Endpoint)
    (hemit : ep ∈ (panelStep (runEvents initialPanelState (es.take i))
      (es.get ⟨i, hi⟩)).2) :
    (∃ env, es.get ⟨i, hi⟩ = PanelEvent.clickYes env) ∧
    (runEvents initialPanelState (es.take i)).confirmAction = some (actionOf ep) ∧
    confirmButtonEvent (actionOf ep) ∈ es.take i := by
  obtain ⟨hyes, hconf⟩ := panelStep_emits _ _ _ hemit
  refine ⟨hyes, hconf, ?_⟩
  rcases runEvents_confirm (es.take i) initialPanelState (actionOf ep) hconf with h | h
  · simp [initialPanelState] at h
  · exact h

/-- Witness for C6: a concrete two-event trace (click "Delete all user", then
Yes) whose second step calls `DELETE /api/sounds/user/all`. -/
theorem confirm_then_call_witness :
    (∃ env, [PanelEvent.clickDeleteAllUserBtn,
        PanelEvent.clickYes ⟨⟨.returns [], .returns true, .returns []⟩, ⟨.returns true⟩,
          ⟨.returns true, .returns []⟩⟩].get ⟨1, by decide⟩ = PanelEvent.clickYes env) ∧
    (runEvents initialPanelState ([PanelEvent.clickDeleteAllUserBtn,
        PanelEvent.clickYes ⟨⟨.returns [], .returns true, .returns []⟩, ⟨.returns true⟩,
          ⟨.returns true, .returns []⟩⟩].take 1)).confirmAction =
      some (actionOf .deleteUserAll) ∧
    confirmButtonEvent (actionOf .deleteUserAll) ∈
      [PanelEvent.clickDeleteAllUserBtn,
        PanelEvent.clickYes ⟨⟨.returns [], .returns true, .returns []⟩, ⟨.returns true⟩,
          ⟨.returns true, .returns []⟩⟩].take 1 :=
  confirm_then_call
    [PanelEvent.clickDeleteAllUserBtn,
      PanelEvent.clickYes ⟨⟨.returns [], .returns true, .returns []⟩, ⟨.returns true⟩,
        ⟨.returns true, .returns []⟩⟩] 1 (by decide) .deleteUserAll (by decide)

/-- One of the delete calls failed: the fetch threw, or the response was not
ok. -/
def asyncFails : Async Bool → Prop
  | .throws _ => True
  | .returns ok => ok = false

/-- A `deleteAllBuiltin` run fails: fetching the ids threw, or there were ids
to hide and the POST failed. -/
def builtinEnvFails (env : BuiltinDeleteEnv) : Prop :=
  match env.idsRes with
  | .throws _ => True
  | .returns ids => ids.length ≠ 0 ∧ asyncFails env.postRes

/-- The outcome keeps the listed state fields of `s` and only sets
`deleteError` to an error message. -/
def ErrorKeepsState (s : PanelState) (out : PanelState × List Endpoint) : Prop :=
  out.1.uploadedFiles = s.uploadedFiles ∧ out.1.selectedIds = s.selectedIds ∧
  out.1.selectionMode = s.selectionMode ∧ out.1.confirmAction = s.confirmAction ∧
  out.1.galaxyVersion = s.galaxyVersion ∧ ∃ m, out.1.deleteError = some m

/-- C9: delete operations leave client state unchanged on error — when the
HTTP response to `deleteSelected`, `deleteAllUser` or `deleteAllBuiltin` is
not ok or the request throws, `uploadedFiles`, `selectedIds`, `selectionMode`,
`confirmAction` and the store's `galaxyVersion` keep their prior values, and
only `deleteError` is set to an error message.  (`deleteSelected` returns
early with no request at all when the selection is empty, so its conjunct
assumes a non-empty selection.) -/
theorem delete_error_leaves_state (s : PanelState) :
    (∀ env : BuiltinDeleteEnv, builtinEnvFails env →
      ErrorKeepsState s (runDeleteAllBuiltin s env)) ∧
    (∀ env : UserAllDeleteEnv, asyncFails env.delRes →
      ErrorKeepsState s (runDeleteAllUser s env)) ∧
    (∀ env : BulkDeleteEnv, s.selectedIds.card ≠ 0 → asyncFails env.bulkRes →
      ErrorKeepsState s (runDeleteSelected s env)) := by
  refine ⟨?_, ?_, ?_⟩
  · intro env hf
    obtain ⟨idsRes, postRes, refetchRes⟩ := env
    rcases idsRes with ids | msg
    · obtain ⟨hne, hpost⟩ := hf
      rcases postRes with ok | msg2
      · have hok : ok = false := hpost
        subst hok
        simp only [runDeleteAllBuiltin, if_neg hne]
        exact ⟨rfl, rfl, rfl, rfl, rfl, _, rfl⟩
      · simp only [runDeleteAllBuiltin, if_neg hne]
        exact ⟨rfl, rfl, rfl, rfl, rfl, _, rfl⟩
    · simp only [runDeleteAllBuiltin]
      exact ⟨rfl, rfl, rfl, rfl, rfl, _, rfl⟩
  · intro env hf
    obtain ⟨delRes⟩ := env
    rcases delRes with ok | msg
    · have hok : ok = false := hf
      subst hok
      simp only [runDeleteAllUser]
      exact ⟨rfl, rfl, rfl, rfl, rfl, _, rfl⟩
    · simp only [runDeleteAllUser]
      exact ⟨rfl, rfl, rfl, rfl, rfl, _, rfl⟩
  · intro env hcard hf
    obtain ⟨bulkRes, refetchRes⟩ := env
    rcases bulkRes with ok | msg
    · have hok : ok = false := hf
      subst hok
      simp only [runDeleteSelected, if_neg hcard]
      exact ⟨rfl, rfl, rfl, rfl, rfl, _, rfl⟩
    · simp only [runDeleteSelected, if_neg hcard]
      exact ⟨rfl, rfl, rfl, rfl, rfl, _, rfl⟩

/-- Witness for C9: each failing delete at a concrete state and environment. -/
theorem delete_error_leaves_state_witness :
    ErrorKeepsState initialPanelState
      (runDeleteAllBuiltin initialPanelState ⟨.throws "x", .returns true, .returns []⟩) ∧
    ErrorKeepsState initialPanelState
      (runDeleteAllUser initialPanelState ⟨.throws "y"⟩) ∧
    ErrorKeepsState { initialPanelState with selectedIds := {1} }
      (runDeleteSelected { initialPanelState with selectedIds := {1} }
        ⟨.returns false, .returns []⟩) :=
  ⟨(delete_error_leaves_state initialPanelState).1
      ⟨.throws "x", .returns true, .returns []⟩ trivial,
    (delete_error_leaves_state initialPanelState).2.1 ⟨.throws "y"⟩ trivial,
    (delete_error_leaves_state { initialPanelState with selectedIds := {1} }).2.2
      ⟨.returns false, .returns []⟩ (by decide) rfl⟩

end Soundromeda
